import Mathlib

/-!
Verification of the schema-directed input fixer / required-field validator and
the query batcher of the `react-mool` gqless data provider
(`src/fixInputData.ts`, the required-field validator module,
`src/helpers/queryBatcher.ts`, `src/helpers/utils.ts`).

JavaScript runtime values are modelled by the inductive type `Value`:
numbers are rationals with an extra `NaN` point (`Option ℚ`, `none` = NaN),
objects are association lists of string keys (a JS object never holds the same
key twice), and `undefined` and `null` are separate constructors.
-/

namespace GqlessDP

/-- A JS number: `none` models `NaN`; finite doubles are modelled as rationals
(floating-point rounding and the infinities are not exercised by this code). -/
abbrev JSNumber := Option ℚ

/-- A JavaScript runtime value, as far as the data provider manipulates them. -/
inductive Value where
  | undef
  | null
  | num (n : JSNumber)
  | str (s : String)
  | bool (b : Bool)
  | arr (items : List Value)
  | obj (fields : List (String × Value))

/-- Size measure used for termination of the value-directed recursions. -/
def vsz : Value → Nat
  | .undef => 1
  | .null => 1
  | .num _ => 2
  | .str _ => 2
  | .bool _ => 2
  | .arr items => 2 + (items.attach.map fun it => vsz it.1).sum
  | .obj fields => 2 + (fields.attach.map fun kv => vsz kv.1.2).sum
decreasing_by
  · have := List.sizeOf_lt_of_mem it.2
    simp; omega
  · have := List.sizeOf_lt_of_mem kv.2
    obtain ⟨⟨k, v⟩, h⟩ := kv
    simp at this ⊢
    omega

theorem vsz_arr (items : List Value) : vsz (.arr items) = 2 + (items.map vsz).sum := by
  rw [vsz, List.attach_map_val]

theorem vsz_obj (fields : List (String × Value)) :
    vsz (.obj fields) = 2 + (fields.map (fun kv => vsz kv.2)).sum := by
  rw [vsz, List.attach_map_val fields (fun kv => vsz kv.2)]

theorem vsz_pos (v : Value) : 1 ≤ vsz v := by
  cases v <;> simp [vsz] <;> omega

theorem vsz_lt_of_mem_arr {it : Value} {items : List Value} (h : it ∈ items) :
    vsz it < vsz (.arr items) := by
  have : vsz it ≤ (items.map vsz).sum := List.le_sum_of_mem (List.mem_map_of_mem vsz h)
  rw [vsz_arr]; omega

theorem vsz_lt_of_mem_obj {k : String} {fv : Value} {fields : List (String × Value)}
    (h : (k, fv) ∈ fields) : vsz fv < vsz (.obj fields) := by
  have : vsz fv ≤ (fields.map (fun kv => vsz kv.2)).sum :=
    List.le_sum_of_mem (List.mem_map_of_mem _ h)
  rw [vsz_obj]; omega

/-- The JS test `value == null` (loose equality): true exactly for `null` and
`undefined`. -/
def isNullish : Value → Bool
  | .null => true
  | .undef => true
  | _ => false

/-- `Array.isArray(value)`. -/
def isJSArray : Value → Bool
  | .arr _ => true
  | _ => false

/-- `isPlainObject` from `utils.ts` / `fixInputData.ts`:
`value != null && !Array.isArray(value)`.  Note that JS primitives
(numbers, strings, booleans) satisfy this test. -/
def isPlainObject (value : Value) : Bool :=
  !isNullish value && !isJSArray value

/-- The own enumerable entries of a value, as visited by `for (const key in v)`:
a plain object yields its fields, every other value yields nothing. -/
def entriesOf : Value → List (String × Value)
  | .obj fields => fields
  | _ => []

/-- Association-list lookup, modelling JS property access `o[k]` on an object
whose keys are unique. -/
def alookup {α : Type} : List (String × α) → String → Option α
  | [], _ => none
  | (k', v) :: rest, k => if k' = k then some v else alookup rest k

theorem alookup_mem {α : Type} {xs : List (String × α)} {k : String} {v : α}
    (h : alookup xs k = some v) : (k, v) ∈ xs := by
  induction xs with
  | nil => simp [alookup] at h
  | cons hd tl ih =>
    by_cases hk : hd.1 = k
    · obtain ⟨k', v'⟩ := hd
      subst hk
      simp [alookup] at h
      simp [h]
    · obtain ⟨k', v'⟩ := hd
      simp [alookup, hk] at h
      simp [ih h]

theorem vsz_lt_of_mem_entriesOf {kv : String × Value} {v : Value}
    (h : kv ∈ entriesOf v) : vsz kv.2 < vsz v := by
  cases v <;> simp [entriesOf] at h
  obtain ⟨k, fv⟩ := kv
  exact vsz_lt_of_mem_obj h

theorem vsz_two_le_of_plain {v : Value} (hv : isPlainObject v = true) : 2 ≤ vsz v := by
  cases v <;> simp [isPlainObject, isNullish, isJSArray] at hv ⊢ <;>
    simp [vsz_arr, vsz_obj, vsz]

theorem vsz_field_lt {v : Value} (hv : isPlainObject v = true) (k : String) :
    vsz ((alookup (entriesOf v) k).getD .undef) < vsz v := by
  cases h : alookup (entriesOf v) k with
  | none =>
    have := vsz_two_le_of_plain hv
    simp [vsz]; omega
  | some fv =>
    have hm := alookup_mem h
    simpa using vsz_lt_of_mem_entriesOf hm

/-! ## Schema Type Descriptor

`parseSchemaType` is imported by the repository from the external `gqless`
package; its source is not part of this repository. -/

structure SchemaTypeInfo where
  pureType : String
  isArray : Bool
  isNullable : Bool
  nullableItems : Bool
deriving DecidableEq

/-- Modelled from the spec: the repository imports `parseSchemaType` from the
external `gqless` package, whose source is missing here.  Per §4.1 of the
spec, a trailing `!` immediately after a bracketed list (`[...]!`) marks the
list itself non-nullable; a `!` immediately after the inner type (`[Type!]`)
marks items non-nullable; a `!` on a bare type marks the value non-nullable;
the pure type is the name stripped of list brackets and nullability
markers. -/
def parseSchemaType (typeName : String) : SchemaTypeInfo :=
  let cs := typeName.data
  let isNullable := cs.getLast? ≠ some '!'
  let cs1 := if cs.getLast? = some '!' then cs.dropLast else cs
  if cs1.head? = some '[' ∧ cs1.getLast? = some ']' then
    let inner := (cs1.drop 1).dropLast
    let nullableItems := inner.getLast? ≠ some '!'
    let core := if inner.getLast? = some '!' then inner.dropLast else inner
    ⟨String.mk core, true, isNullable, nullableItems⟩
  else
    ⟨String.mk cs1, false, isNullable, true⟩

/-- The five scalar type names (`utils.ts` / `fixInputData.ts`). -/
def scalars : List String := ["Int", "Float", "String", "Boolean", "ID"]

/-- `isScalar` from `utils.ts` / `fixInputData.ts`. -/
def isScalar (typeName : String) : Bool := scalars.contains typeName

/-! ## JS builtin coercions used by `fixScalar` -/

/-- Value of a list of decimal digit characters. -/
def digitsToNat (ds : List Char) : Nat :=
  ds.foldl (fun acc c => acc * 10 + (c.toNat - '0'.toNat)) 0

/-- Decimal literal parser: `digits`, `digits.digits`, `digits.` or `.digits`.
The value `i + f/10^k` is built with `mkRat` so that it kernel-reduces. -/
def parseDecimal (cs : List Char) : Option ℚ :=
  let intPart := cs.takeWhile (·.isDigit)
  let rest := cs.dropWhile (·.isDigit)
  match rest with
  | [] => if intPart = [] then none else some (digitsToNat intPart : ℚ)
  | '.' :: frac =>
    if frac.all (·.isDigit) ∧ (intPart ≠ [] ∨ frac ≠ []) then
      some (mkRat (digitsToNat intPart * 10 ^ frac.length + digitsToNat frac)
        (10 ^ frac.length))
    else none
  | _ => none

/-- JS `Number(string)`: trimmed empty string is `0`, an optionally signed
decimal literal is its value, anything else is `NaN` (hexadecimal, exponent
and `Infinity` forms are not exercised by this code and parse to `NaN` in
this model). -/
def parseJSNumber (s : String) : Option ℚ :=
  let cs := ((s.data.dropWhile (· = ' ')).reverse.dropWhile (· = ' ')).reverse
  match cs with
  | [] => some 0
  | '-' :: rest => (parseDecimal rest).map (fun q => -q)
  | '+' :: rest => parseDecimal rest
  | _ => parseDecimal cs

/-- JS `Number(value)` coercion.  `ToPrimitive` on arrays and objects is
modelled as `NaN` (the repository never coerces those to numbers). -/
def toNumber : Value → JSNumber
  | .undef => none
  | .null => some 0
  | .num n => n
  | .str s => parseJSNumber s
  | .bool b => some (if b then 1 else 0)
  | .arr _ => none
  | .obj _ => none

/-- JS `Math.round`: round half toward positive infinity, i.e. `⌊q + 1/2⌋`
(computed as `⌊(2·num + den) / (2·den)⌋` so that it kernel-reduces; the lemma
`jsRound_eq_floor` below states the equivalence); `NaN` stays `NaN`. -/
def jsRound (n : JSNumber) : JSNumber :=
  n.map fun q =>
    mkRat (Rat.floor (Rat.divInt (2 * q.num + (q.den : ℤ)) (2 * (q.den : ℤ)))) 1

/-- JS `Number.isInteger` restricted to numbers (`NaN` is not an integer). -/
def jsIsInteger : JSNumber → Bool
  | none => false
  | some q => q.den == 1

/-- JS `Boolean(value)` truthiness. -/
def truthy : Value → Bool
  | .undef => false
  | .null => false
  | .bool b => b
  | .num none => false
  | .num (some q) => decide (q ≠ 0)
  | .str s => decide (s ≠ "")
  | .arr _ => true
  | .obj _ => true

/-- Printing of a JS number.  Integral values print their integer; the
non-integral case is a deterministic stand-in for JS float formatting
(never compared against by the claims). -/
def jsNumberToString (n : JSNumber) : String :=
  match n with
  | none => "NaN"
  | some q => if q.den = 1 then toString q.num else toString q

/-- JS `String(value)` coercion.  Arrays join their elements with `","`
(`null`/`undefined` elements print empty), objects print the generic tag. -/
def jsToString (v : Value) : String :=
  match v with
  | .undef => "undefined"
  | .null => "null"
  | .num n => jsNumberToString n
  | .str s => s
  | .bool b => if b then "true" else "false"
  | .arr items =>
    String.intercalate "," (items.attach.map fun it =>
      if isNullish it.1 then "" else jsToString it.1)
  | .obj _ => "[object Object]"
termination_by vsz v
decreasing_by
  exact vsz_lt_of_mem_arr it.2

/-! ## The Input Fixer (`fixInputData.ts`) -/

/-- `fixScalar` from `fixInputData.ts`. -/
def fixScalar (value : Value) (typeName : String) : Value :=
  match typeName with
  | "Int" =>
    match value with
    | .num n => if jsIsInteger n then .num n else .num (jsRound (toNumber (.num n)))
    | v => .num (jsRound (toNumber v))
  | "Float" =>
    match value with
    | .num n => .num n
    | v => .num (toNumber v)
  | "String" | "ID" =>
    match value with
    | .str s => .str s
    | v => .str (jsToString v)
  | "Boolean" =>
    match value with
    | .bool b => .bool b
    | v => .bool (truthy v)
  | _ => value

/-- A gqless `Schema`: type name ↦ (field name ↦ the field's `__type` string). -/
abbrev Schema := List (String × List (String × String))

/-- A gqless operation `Type`: its `__args` record (argument name ↦ type name),
which may be absent. -/
structure OpType where
  args : Option (List (String × String))

/-- `args?.[key]` on an operation type. -/
def argLookup (args : Option (List (String × String))) (k : String) : Option String :=
  match args with
  | none => none
  | some a => alookup a k

/-- `fixValue` from `fixInputData.ts`.

The object branch writes `result[key] = fixValue(value[key], ...)` for each
key of `value` in insertion order; since a JS object never holds a key twice,
this is the `filterMap` below over the entry list. -/
def fixValue (value : Value) (typeName : String) (schema : Schema) : Value :=
  if isNullish value then
    value
  else
    let p := parseSchemaType typeName
    if p.isArray then
      -- Skip value if it is not an array, else fix every item
      match value with
      | .arr items => .arr (items.attach.map fun it => fixValue it.1 p.pureType schema)
      | _ => .undef
    else if isScalar p.pureType then
      fixScalar value p.pureType
    else
      match alookup schema p.pureType with
      | none => value  -- type object not found, maybe an enum: leave value as is
      | some typeObject =>
        if isPlainObject value then
          .obj ((entriesOf value).attach.filterMap fun kv =>
            match alookup typeObject kv.1.1 with
            | some fieldType => some (kv.1.1, fixValue kv.1.2 fieldType schema)
            | none => none)
        else
          -- skip value if it is not an object
          .undef
termination_by vsz value
decreasing_by
  · exact vsz_lt_of_mem_arr it.2
  · exact vsz_lt_of_mem_entriesOf kv.2

/-- `fixInputData` from `fixInputData.ts`.  The truthiness test
`if (argTypeName)` fails for the empty string, hence the `= ""` guard. -/
def fixInputData (data : Value) (operationType : OpType) (schema : Schema) : Value :=
  if ¬ isPlainObject data then data
  else
    .obj ((entriesOf data).filterMap fun kv =>
      match argLookup operationType.args kv.1 with
      | some argTypeName =>
        if argTypeName = "" then none
        else some (kv.1, fixValue kv.2 argTypeName schema)
      | none => none)

/-! ## The pruning property (spec §4.3 guarantee / §8) -/

/-- Spec-side predicate: at type `typeName`, the value's object skeleton holds
no key absent from the schema's field set for the expected type at that
position; types with no schema entry are opaque leaves (anything goes
beneath them), and scalar positions are leaves. -/
def pruned (v : Value) (typeName : String) (s : Schema) : Bool :=
  let p := parseSchemaType typeName
  if p.isArray then
    match v with
    | .arr items => items.attach.all fun it => pruned it.1 p.pureType s
    | _ => true
  else if isScalar p.pureType then true
  else
    match alookup s p.pureType with
    | none => true
    | some typeObject =>
      match v with
      | .obj fields => fields.attach.all fun kv =>
          match alookup typeObject kv.1.1 with
          | some fieldType => pruned kv.1.2 fieldType s
          | none => false
      | _ => true
termination_by vsz v
decreasing_by
  · exact vsz_lt_of_mem_arr it.2
  · exact vsz_lt_of_mem_entriesOf (v := .obj fields) kv.2

/-- Spec-side predicate at the root: every key of a fixed root object is a
declared operation argument whose value is `pruned` at its argument type. -/
def prunedRoot (v : Value) (operationType : OpType) (s : Schema) : Bool :=
  match v with
  | .obj fields => fields.all fun kv =>
      match argLookup operationType.args kv.1 with
      | some argTypeName => pruned kv.2 argTypeName s
      | none => false
  | _ => true

/-! ## The Required-Field Validator -/

theorem mem_of_mem_enum {α : Type} {l : List α} {ia : Nat × α} (h : ia ∈ l.enum) :
    ia.2 ∈ l := by
  have hm : ia.2 ∈ l.enum.map Prod.snd := List.mem_map_of_mem _ h
  rw [List.enum_eq_enumFrom, List.enumFrom_map_snd] at hm
  exact hm

/-- `appendFieldPath` from the validator module (segments already stringified;
the JS version also accepts `null` as the current path, which the module
never passes). -/
def appendFieldPath (current : String) (fieldPath : String) : String :=
  if current = "" then fieldPath else current ++ "." ++ fieldPath

/-- `context.validationErrors[path] = msg`: JS property assignment on the
accumulated errors object — overwrite in place if the key exists, else append. -/
def insertErr (errs : List (String × String)) (path msg : String) :
    List (String × String) :=
  if (alookup errs path).isSome then
    errs.map fun kv => if kv.1 = path then (kv.1, msg) else kv
  else errs ++ [(path, msg)]

/-- `validateValue` from the validator module.  The mutable
`context.validationErrors` is threaded explicitly as `errs`;
`msg` is `context.requiredErrorMessage`. -/
def validateValue (value : Value) (fieldPath : String) (typeName : String)
    (schema : Schema) (msg : String) (errs : List (String × String)) :
    List (String × String) :=
  let p := parseSchemaType typeName
  -- If required and value is nullish, then add error (and stop)
  if ¬ p.isNullable ∧ isNullish value then
    insertErr errs fieldPath msg
  else
    -- If array and required items, check that every item is not nullish
    let errs1 :=
      if p.isArray ∧ ¬ p.nullableItems then
        match value with
        | .arr items =>
          items.enum.foldl (fun acc ie =>
            if isNullish ie.2 then
              insertErr acc (appendFieldPath fieldPath (toString ie.1)) msg
            else acc) errs
        | _ => errs
      else errs
    -- If array, continue to validate each item
    if p.isArray then
      match value with
      | .arr items =>
        items.enum.attach.foldl (fun acc ie =>
          validateValue ie.1.2 (appendFieldPath fieldPath (toString ie.1.1))
            p.pureType schema msg acc) errs1
      | _ => errs1
    else if ¬ isScalar p.pureType then
      -- If not a scalar, continue to validate each field of the type
      match alookup schema p.pureType with
      | none => errs1  -- type object not found, maybe an enum: don't go further
      | some typeObject =>
        if hv : isPlainObject value then
          typeObject.foldl (fun acc kv =>
            validateValue ((alookup (entriesOf value) kv.1).getD .undef)
              (appendFieldPath fieldPath kv.1) kv.2 schema msg acc) errs1
        else errs1  -- skip value if it is not an object
    else errs1
termination_by vsz value
decreasing_by
  · exact vsz_lt_of_mem_arr (mem_of_mem_enum ie.2)
  · exact vsz_field_lt hv _

/-- `validateRequiredInputData` from the validator module.  For each declared
operation argument, the value at that key is validated with the empty string
as starting field path (the argument name itself is deliberately omitted). -/
def validateRequiredInputData (data : Value) (operationType : OpType)
    (schema : Schema) (requiredErrorMessage : String) :
    Option (List (String × String)) :=
  -- An object is expected, otherwise no validation is performed
  if ¬ isPlainObject data then none
  else
    let errs := (operationType.args.getD []).foldl (fun acc kv =>
      validateValue ((alookup (entriesOf data) kv.1).getD .undef) "" kv.2
        schema requiredErrorMessage acc) []
    if errs = [] then none else some errs

/-! ## The Request Batcher (`queryBatcher.ts`) -/

section QueryBatcher

variable {α ρ ε : Type}

/-- Settlement of one batch entry: `none` means the entry's promise is never
settled, `some (.ok r)` that `resolve r` was called, `some (.error e)` that
`reject e` was called. -/
abbrev Settlement (ρ ε : Type) := Option (Except ε ρ)

/-- Denotation of `runRequests` of `queryBatcher.ts` for one flushed cycle.

`reqs` is the snapshot of the queue, `combined` the outcome of the combined
`gqlessClient.resolved` call on all thunks, and `retry` the outcome of the
individual `gqlessClient.resolved` re-execution of a single entry's thunk
(used only on the multi-entry failure path).  The returned list gives each
entry's settlement, positionally. -/
def runRequests (reqs : List α) (combined : Except ε (List ρ))
    (retry : α → Except ε ρ) : List (Settlement ρ ε) :=
  match combined with
  | .ok results =>
    -- results.forEach((res, i) => reqs[i].resolve(res))
    (List.range reqs.length).map fun i => (results.get? i).map Except.ok
  | .error err =>
    if reqs.length = 1 then
      -- single request: call its reject callback with the combined error
      reqs.map fun _ => some (.error err)
    else
      -- retry all of them, one by one, without batching
      reqs.map fun r => some (retry r)

/-- State of `createQueryBatcher`: the pending `requests` queue, whether
`hTimeout` is non-null, and (for specification purposes) the history of
snapshots already flushed by `runRequests`, in order. -/
structure BatchState (α : Type) where
  requests : List α
  timerArmed : Bool
  flushed : List (List α)

/-- An externally observable batcher event: a caller invoking `request`
(appending an entry, arming the timer if idle), or the batch-window timer
firing (synchronously snapshotting and clearing the queue). -/
inductive BatchEvent (α : Type) where
  | submit (e : α)
  | fire

/-- One step of the batcher state machine. -/
def batchStep (st : BatchState α) (ev : BatchEvent α) : BatchState α :=
  match ev with
  | .submit e =>
    { st with requests := st.requests ++ [e], timerArmed := true }
  | .fire =>
    if st.timerArmed then
      { requests := [], timerArmed := false, flushed := st.flushed ++ [st.requests] }
    else st

/-- The batcher's initial state: empty queue, no timer, nothing flushed. -/
def batchInit : BatchState α := ⟨[], false, []⟩

/-- Run the batcher over a sequence of events. -/
def batchRun (evs : List (BatchEvent α)) : BatchState α :=
  evs.foldl batchStep batchInit

/-- The entries submitted in a sequence of events, in submission order. -/
def submittedOf (evs : List (BatchEvent α)) : List α :=
  evs.filterMap fun ev =>
    match ev with
    | .submit e => some e
    | .fire => none

end QueryBatcher

/-! ## Helper lemmas -/

theorem foldl_skip {α β : Type} (l : List α) (init : β) :
    l.foldl (fun acc _ => acc) init = init := by
  induction l generalizing init with
  | nil => rfl
  | cons hd tl ih => exact ih init

theorem scalar_cases {P : String} (hP : isScalar P = true) :
    P = "Int" ∨ P = "Float" ∨ P = "String" ∨ P = "Boolean" ∨ P = "ID" := by
  have hmem : P ∈ scalars := by
    rw [isScalar, List.contains] at hP
    exact List.mem_of_elem_eq_true hP
  simpa [scalars] using hmem

theorem parseSchemaType_scalar {P : String} (hP : isScalar P = true) :
    parseSchemaType P = ⟨P, false, true, true⟩ := by
  rcases scalar_cases hP with rfl | rfl | rfl | rfl | rfl <;> decide

theorem validateValue_required_nullish {T : String}
    (hT : (parseSchemaType T).isNullable = false)
    {v : Value} (hv : isNullish v = true) (path : String) (s : Schema) (m : String)
    (errs : List (String × String)) :
    validateValue v path T s m errs = insertErr errs path m := by
  rw [validateValue.eq_def]
  simp [hT, hv]

theorem validateValue_scalar_skip {P : String} (hP : isScalar P = true)
    (v : Value) (path : String) (s : Schema) (m : String)
    (errs : List (String × String)) :
    validateValue v path P s m errs = errs := by
  rw [validateValue.eq_def]
  simp [parseSchemaType_scalar hP, hP]

theorem jsRound_eq_floor (q : ℚ) : jsRound (some q) = some ((⌊q + 1/2⌋ : ℤ) : ℚ) := by
  have hd : ((q.den : ℚ)) ≠ 0 := by
    exact_mod_cast q.den_ne_zero
  have h0 : (2 * (q.num : ℚ) + q.den) / (2 * q.den) = (q.num : ℚ) / q.den + 1/2 := by
    field_simp
    ring
  have h1 : Rat.divInt (2 * q.num + (q.den : ℤ)) (2 * (q.den : ℤ)) = q + 1/2 := by
    rw [Rat.divInt_eq_div]
    push_cast
    rw [h0, Rat.num_div_den]
  have h2 : Rat.floor (q + 1/2) = ⌊q + 1/2⌋ := by
    rw [Rat.floor_def', Rat.floor_def]
  simp only [jsRound, Option.map]
  rw [h1, h2, Rat.mkRat_one]

theorem jsRound_none : jsRound none = none := rfl

theorem jsIsInteger_jsRound (q : ℚ) : jsIsInteger (jsRound (some q)) = true := by
  simp [jsRound, jsIsInteger, Rat.mkRat_one]

theorem fixScalar_int_fixed (m : JSNumber) :
    fixScalar (.num (jsRound m)) "Int" = .num (jsRound m) := by
  cases m with
  | none => simp [fixScalar, jsIsInteger, jsRound, toNumber]
  | some q => simp [fixScalar, jsIsInteger_jsRound]

theorem fixScalar_not_nullish {P : String} (hP : isScalar P = true) (v : Value) :
    isNullish (fixScalar v P) = false := by
  rcases scalar_cases hP with rfl | rfl | rfl | rfl | rfl
  · cases v with
    | num n => by_cases hi : jsIsInteger n <;> simp [fixScalar, hi, isNullish]
    | undef => rfl
    | null => rfl
    | str a => rfl
    | bool b => rfl
    | arr l => rfl
    | obj fs => rfl
  · cases v <;> rfl
  · cases v <;> rfl
  · cases v <;> rfl
  · cases v <;> rfl

theorem fixScalar_idem {P : String} (hP : isScalar P = true) (v : Value) :
    fixScalar (fixScalar v P) P = fixScalar v P := by
  rcases scalar_cases hP with rfl | rfl | rfl | rfl | rfl
  · cases v with
    | num n =>
      by_cases hi : jsIsInteger n
      · simp [fixScalar, hi]
      · simp only [fixScalar, hi, Bool.false_eq_true, if_false]
        exact fixScalar_int_fixed (toNumber (.num n))
    | undef => exact fixScalar_int_fixed (toNumber .undef)
    | null => exact fixScalar_int_fixed (toNumber .null)
    | str a => exact fixScalar_int_fixed (toNumber (.str a))
    | bool b => exact fixScalar_int_fixed (toNumber (.bool b))
    | arr l => exact fixScalar_int_fixed (toNumber (.arr l))
    | obj fs => exact fixScalar_int_fixed (toNumber (.obj fs))
  · cases v <;> rfl
  · cases v <;> rfl
  · cases v <;> rfl
  · cases v <;> rfl

theorem attach_filterMap {β γ : Type} (l : List β) (f : β → Option γ) :
    (l.attach.filterMap fun y => f y.1) = l.filterMap f := by
  have hmap : l.attach.map (fun y => y.1) = l := by
    rw [List.attach_map_val l (fun x => x)]
    exact List.map_id l
  calc (l.attach.filterMap fun y => f y.1)
      = (l.attach.map (fun y => y.1)).filterMap f := by
        rw [List.filterMap_map]
        rfl
    _ = l.filterMap f := by rw [hmap]

theorem filterMap_self {β : Type} (l : List β) (f : β → Option β)
    (h : ∀ x ∈ l, f x = some x) : l.filterMap f = l := by
  induction l with
  | nil => rfl
  | cons hd tl ih =>
    rw [List.filterMap_cons, h hd (List.mem_cons_self hd tl)]
    rw [ih fun x hx => h x (List.mem_cons_of_mem hd hx)]

theorem attach_filterMap_fix (l : List (String × Value))
    (tObj : List (String × String)) (s : Schema) :
    (l.attach.filterMap fun kv =>
        match alookup tObj kv.1.1 with
        | some fieldType => some (kv.1.1, fixValue kv.1.2 fieldType s)
        | none => none)
      = l.filterMap fun e =>
        match alookup tObj e.1 with
        | some fieldType => some (e.1, fixValue e.2 fieldType s)
        | none => none :=
  attach_filterMap l (fun e =>
    match alookup tObj e.1 with
    | some fieldType => some (e.1, fixValue e.2 fieldType s)
    | none => none)

theorem pruned_leaf (v : Value) (t : String) (s : Schema)
    (h : ∀ its, v ≠ .arr its) (h2 : ∀ fs, v ≠ .obj fs) : pruned v t s = true := by
  rw [pruned.eq_def]
  cases v with
  | arr its => exact absurd rfl (h its)
  | obj fs => exact absurd rfl (h2 fs)
  | undef => simp; split <;> simp
  | null => simp; split <;> simp
  | num n => simp; split <;> simp
  | str a => simp; split <;> simp
  | bool b => simp; split <;> simp

theorem pruned_fixValue (v : Value) (t : String) (s : Schema) :
    pruned (fixValue v t s) t s = true := by
  suffices H : ∀ n (v : Value), vsz v ≤ n → ∀ t s, pruned (fixValue v t s) t s = true by
    exact H (vsz v) v le_rfl t s
  intro n
  induction n with
  | zero => intro v hv; have := vsz_pos v; omega
  | succ n ih =>
    intro v hv t s
    rw [fixValue.eq_def]
    by_cases hnull : isNullish v
    · simp only [hnull, if_true]
      cases v with
      | undef => exact pruned_leaf _ _ _ (by intro _ h; cases h) (by intro _ h; cases h)
      | null => exact pruned_leaf _ _ _ (by intro _ h; cases h) (by intro _ h; cases h)
      | _ => simp [isNullish] at hnull
    · simp only [hnull, Bool.false_eq_true, if_false]
      by_cases harr : (parseSchemaType t).isArray
      · simp only [harr, if_true]
        cases v with
        | arr items =>
          rw [pruned.eq_def]
          simp only [harr, if_true]
          rw [List.all_eq_true]
          intro x hx
          obtain ⟨it, hit, hxe⟩ := List.mem_map.mp (x.2)
          have hlt : vsz it.1 < vsz (.arr items) := vsz_lt_of_mem_arr it.2
          rw [← hxe]
          exact ih it.1 (by omega) _ s
        | undef => simp [isNullish] at hnull
        | null => simp [isNullish] at hnull
        | num m => exact pruned_leaf _ _ _ (by intro _ h; cases h) (by intro _ h; cases h)
        | str a => exact pruned_leaf _ _ _ (by intro _ h; cases h) (by intro _ h; cases h)
        | bool b => exact pruned_leaf _ _ _ (by intro _ h; cases h) (by intro _ h; cases h)
        | obj fs => exact pruned_leaf _ _ _ (by intro _ h; cases h) (by intro _ h; cases h)
      · simp only [harr, Bool.false_eq_true, if_false]
        by_cases hsc : isScalar (parseSchemaType t).pureType
        · simp only [hsc, if_true]
          rw [pruned.eq_def]
          simp [harr, hsc]
        · simp only [hsc, Bool.false_eq_true, if_false]
          cases hlk : alookup s (parseSchemaType t).pureType with
          | none =>
            rw [pruned.eq_def]
            simp [harr, hsc, hlk, ite_self]
          | some typeObject =>
            by_cases hpo : isPlainObject v
            · simp only [hpo, if_true]
              rw [pruned.eq_def]
              simp only [harr, Bool.false_eq_true, if_false, hsc, hlk]
              rw [List.all_eq_true]
              rintro ⟨⟨xk, xv⟩, hxm⟩ _
              obtain ⟨kv, hkv, hxe⟩ := List.mem_filterMap.mp hxm
              cases hft : alookup typeObject kv.1.1 with
              | none => rw [hft] at hxe; cases hxe
              | some ft =>
                rw [hft] at hxe
                simp only [Option.some.injEq, Prod.mk.injEq] at hxe
                obtain ⟨h1, h2⟩ := hxe
                subst h1
                subst h2
                have hlt : vsz kv.1.2 < vsz v := vsz_lt_of_mem_entriesOf kv.2
                simp only [hft]
                exact ih kv.1.2 (by omega) ft s
            · simp only [hpo, Bool.false_eq_true, if_false]
              exact pruned_leaf _ _ _ (by intro _ h; cases h) (by intro _ h; cases h)

theorem prunedRoot_fixInputData (data : Value) (op : OpType) (s : Schema) :
    prunedRoot (fixInputData data op s) op s = true := by
  by_cases hpo : isPlainObject data
  · rw [fixInputData, if_neg (not_not_intro hpo)]
    rw [prunedRoot]
    rw [List.all_eq_true]
    rintro ⟨xk, xv⟩ hkv
    obtain ⟨e, he, hee⟩ := List.mem_filterMap.mp hkv
    cases hal : argLookup op.args e.1 with
    | none => rw [hal] at hee; cases hee
    | some tn =>
      rw [hal] at hee
      by_cases htn : tn = ""
      · simp only [htn, reduceIte] at hee
        cases hee
      · simp only [if_neg htn, Option.some.injEq, Prod.mk.injEq] at hee
        obtain ⟨h1, h2⟩ := hee
        subst h1
        subst h2
        simp only [hal]
        exact pruned_fixValue _ _ _
  · rw [fixInputData, if_pos hpo]
    cases data with
    | obj fs => exact absurd (by simp [isPlainObject, isNullish, isJSArray]) hpo
    | num m => exact absurd (by simp [isPlainObject, isNullish, isJSArray]) hpo
    | str a => exact absurd (by simp [isPlainObject, isNullish, isJSArray]) hpo
    | bool b => exact absurd (by simp [isPlainObject, isNullish, isJSArray]) hpo
    | undef => rfl
    | null => rfl
    | arr l => rfl

theorem fixValue_idem (v : Value) (t : String) (s : Schema) :
    fixValue (fixValue v t s) t s = fixValue v t s := by
  suffices H : ∀ n (v : Value), vsz v ≤ n → ∀ t s,
      fixValue (fixValue v t s) t s = fixValue v t s by
    exact H (vsz v) v le_rfl t s
  intro n
  induction n with
  | zero => intro v hv; have := vsz_pos v; omega
  | succ n ih =>
    intro v hv t s
    by_cases hnull : isNullish v
    · have hfix : fixValue v t s = v := by
        rw [fixValue.eq_def]; simp [hnull]
      rw [hfix, hfix]
    · by_cases harr : (parseSchemaType t).isArray
      · cases v with
        | arr items =>
          have hfix : fixValue (.arr items) t s =
              .arr (items.attach.map fun it =>
                fixValue it.1 (parseSchemaType t).pureType s) := by
            rw [fixValue.eq_def]; simp [isNullish, harr]
          rw [hfix]
          rw [fixValue.eq_def]
          simp only [isNullish, Bool.false_eq_true, if_false, harr, if_true]
          congr 1
          rw [List.attach_map_val _ (fun x => fixValue x (parseSchemaType t).pureType s)]
          have hid : ∀ x ∈ (items.attach.map fun it =>
              fixValue it.1 (parseSchemaType t).pureType s),
              fixValue x (parseSchemaType t).pureType s = x := by
            intro x hx
            obtain ⟨it, hit, rfl⟩ := List.mem_map.mp hx
            have := vsz_lt_of_mem_arr it.2
            exact ih it.1 (by omega) _ s
          rw [List.map_congr_left hid, List.map_id']
        | undef => simp [isNullish] at hnull
        | null => simp [isNullish] at hnull
        | num m =>
          have hfix : fixValue (.num m) t s = .undef := by
            rw [fixValue.eq_def]; simp [isNullish, harr]
          rw [hfix]
          rw [fixValue.eq_def]; simp [isNullish]
        | str a =>
          have hfix : fixValue (.str a) t s = .undef := by
            rw [fixValue.eq_def]; simp [isNullish, harr]
          rw [hfix]
          rw [fixValue.eq_def]; simp [isNullish]
        | bool b =>
          have hfix : fixValue (.bool b) t s = .undef := by
            rw [fixValue.eq_def]; simp [isNullish, harr]
          rw [hfix]
          rw [fixValue.eq_def]; simp [isNullish]
        | obj fs =>
          have hfix : fixValue (.obj fs) t s = .undef := by
            rw [fixValue.eq_def]; simp [isNullish, harr]
          rw [hfix]
          rw [fixValue.eq_def]; simp [isNullish]
      · by_cases hsc : isScalar (parseSchemaType t).pureType
        · have hfix : fixValue v t s = fixScalar v (parseSchemaType t).pureType := by
            rw [fixValue.eq_def]; simp [hnull, harr, hsc]
          rw [hfix]
          rw [fixValue.eq_def]
          simp only [fixScalar_not_nullish hsc, Bool.false_eq_true, if_false,
            harr, hsc, if_true]
          exact fixScalar_idem hsc v
        · cases hlk : alookup s (parseSchemaType t).pureType with
          | none =>
            have hfix : fixValue v t s = v := by
              rw [fixValue.eq_def]; simp [hnull, harr, hsc, hlk]
            rw [hfix, hfix]
          | some typeObject =>
            by_cases hpo : isPlainObject v
            · have hfix : fixValue v t s =
                  .obj ((entriesOf v).attach.filterMap fun kv =>
                    match alookup typeObject kv.1.1 with
                    | some fieldType => some (kv.1.1, fixValue kv.1.2 fieldType s)
                    | none => none) := by
                rw [fixValue.eq_def]; simp [hnull, harr, hsc, hlk, hpo]
              rw [hfix]
              rw [fixValue.eq_def]
              simp only [isNullish, Bool.false_eq_true, if_false, harr, hsc, hlk,
                isPlainObject, isJSArray, Bool.not_false, Bool.and_self, if_true]
              congr 1
              rw [show entriesOf (Value.obj ((entriesOf v).attach.filterMap fun kv =>
                    match alookup typeObject kv.1.1 with
                    | some fieldType => some (kv.1.1, fixValue kv.1.2 fieldType s)
                    | none => none)) = ((entriesOf v).attach.filterMap fun kv =>
                    match alookup typeObject kv.1.1 with
                    | some fieldType => some (kv.1.1, fixValue kv.1.2 fieldType s)
                    | none => none) from rfl]
              rw [attach_filterMap_fix ((entriesOf v).attach.filterMap fun kv =>
                    match alookup typeObject kv.1.1 with
                    | some fieldType => some (kv.1.1, fixValue kv.1.2 fieldType s)
                    | none => none) typeObject s]
              apply filterMap_self
              intro x hx
              obtain ⟨kv, hkv, hxe⟩ := List.mem_filterMap.mp hx
              cases hft : alookup typeObject kv.1.1 with
              | none => rw [hft] at hxe; cases hxe
              | some ft =>
                rw [hft] at hxe
                simp only [Option.some.injEq] at hxe
                subst hxe
                have := vsz_lt_of_mem_entriesOf kv.2
                simp only [hft, Option.some.injEq, Prod.mk.injEq, true_and]
                exact ih kv.1.2 (by omega) ft s
            · have hfix : fixValue v t s = .undef := by
                rw [fixValue.eq_def]; simp [hnull, harr, hsc, hlk, hpo]
              rw [hfix]
              rw [fixValue.eq_def]; simp [isNullish]

theorem fixInputData_idem (d : Value) (op : OpType) (s : Schema) :
    fixInputData (fixInputData d op s) op s = fixInputData d op s := by
  by_cases hpo : isPlainObject d
  · have hin : fixInputData d op s = .obj ((entriesOf d).filterMap fun kv =>
        match argLookup op.args kv.1 with
        | some argTypeName =>
          if argTypeName = "" then none else some (kv.1, fixValue kv.2 argTypeName s)
        | none => none) := by
      rw [fixInputData, if_neg (not_not_intro hpo)]
    rw [hin, fixInputData, if_neg (by simp [isPlainObject, isNullish, isJSArray])]
    congr 1
    apply filterMap_self
    intro x hx
    obtain ⟨e, he, hee⟩ := List.mem_filterMap.mp hx
    cases hal : argLookup op.args e.1 with
    | none => rw [hal] at hee; cases hee
    | some tn =>
      rw [hal] at hee
      by_cases htn : tn = ""
      · simp only [htn, reduceIte] at hee
        cases hee
      · simp only [if_neg htn, Option.some.injEq] at hee
        subst hee
        simp only [hal, if_neg htn, Option.some.injEq, Prod.mk.injEq, true_and]
        exact fixValue_idem e.2 tn s
  · have hin : fixInputData d op s = d := by rw [fixInputData, if_pos hpo]
    rw [hin, hin]

/-! ## Claims -/

/-- C2 (counterexample): the claim says a number root is returned unchanged,
but `isPlainObject 5 = true` in the code (only `null`/`undefined`/arrays are
excluded), so `fixInputData` walks the number's (empty) key set and returns
the empty object, not the number. -/
theorem fixInputData_number_root_counterexample :
    fixInputData (.num (some 5)) ⟨some [("a", "Int")]⟩ [] ≠ .num (some 5) := by
  intro h
  have h2 : Value.obj [] = Value.num (some 5) := h
  exact Value.noConfusion h2

/-- C2 (amended): for every root input that is `null`, `undefined` or an
array — the values the code's `isPlainObject` test actually excludes —
`fixInputData` returns it unchanged; other primitive roots instead yield an
empty object. -/
theorem fixInputData_nonobject_root_unchanged :
    ∀ (op : OpType) (s : Schema) (l : List Value),
      fixInputData .null op s = .null ∧ fixInputData .undef op s = .undef ∧
      fixInputData (.arr l) op s = .arr l := by
  intro op s l
  refine ⟨?_, ?_, ?_⟩ <;> simp [fixInputData, isPlainObject, isNullish, isJSArray]

/-- C10: when the root data is `null`, `undefined` or an array,
`validateRequiredInputData` reports no errors at all (returns `none`),
whatever required arguments the operation declares. -/
theorem validate_nonobject_root_none :
    ∀ (op : OpType) (s : Schema) (m : String) (l : List Value),
      validateRequiredInputData .null op s m = none ∧
      validateRequiredInputData .undef op s m = none ∧
      validateRequiredInputData (.arr l) op s m = none := by
  intro op s m l
  refine ⟨?_, ?_, ?_⟩ <;>
    simp [validateRequiredInputData, isPlainObject, isNullish, isJSArray]

/-- C8: validating `{name: null}` against an operation whose single argument
`name` has a non-nullable type yields a violations mapping whose only key is
the empty string (the top-level argument name never appears in paths). -/
theorem validate_top_level_path_empty (T : String) (s : Schema) (m : String)
    (hT : (parseSchemaType T).isNullable = false) :
    validateRequiredInputData (.obj [("name", .null)]) ⟨some [("name", T)]⟩ s m =
      some [("", m)] := by
  have h1 : validateValue .null "" T s m [] = insertErr [] "" m :=
    validateValue_required_nullish hT (v := .null) rfl "" s m []
  simp [validateRequiredInputData, isPlainObject, isNullish, isJSArray, entriesOf,
    alookup, h1, insertErr]

/-- C8 witness at `T = "String!"`. -/
theorem validate_top_level_path_empty_witness :
    validateRequiredInputData (.obj [("name", .null)]) ⟨some [("name", "String!")]⟩
      [] "required" = some [("", "required")] :=
  validate_top_level_path_empty "String!" [] "required" (by decide)

/-- C9: validating `[1, null, 3]` against a top-level argument of a
non-nullable-items array type with scalar item type yields exactly one
violation, at path `"1"` (sibling elements are still validated and add
nothing). -/
theorem validate_array_null_propagation (T : String) (s : Schema) (m : String)
    (hA : (parseSchemaType T).isArray = true)
    (hNI : (parseSchemaType T).nullableItems = false)
    (hS : isScalar (parseSchemaType T).pureType = true) :
    validateRequiredInputData
      (.obj [("a", .arr [.num (some 1), .null, .num (some 3)])])
      ⟨some [("a", T)]⟩ s m = some [("1", m)] := by
  have hv : validateValue (.arr [.num (some 1), .null, .num (some 3)]) "" T s m [] =
      [("1", m)] := by
    rw [validateValue.eq_def]
    simp only [validateValue_scalar_skip hS]
    simp [hA, hNI, isNullish, List.enum, List.enumFrom, foldl_skip,
      insertErr, alookup, appendFieldPath]
    rfl
  simp [validateRequiredInputData, isPlainObject, isNullish, isJSArray, entriesOf,
    alookup, hv]

/-- C7: scalar coercion.  (1) `Int` keeps an already-integral number; (2) any
other value is converted with `Number(·)` and rounded; (3) rounding is to a
nearest integer (half away from the lower side); (4) a numeric-looking string
coerced to `Int` or `Float` yields a native (non-`NaN`) number; (5) a
non-boolean coerced to `Boolean` yields the native boolean of its truthiness;
(6)–(9) values already of the target native kind pass through unchanged. -/
theorem fixScalar_coercion :
    (∀ n : JSNumber, jsIsInteger n = true → fixScalar (.num n) "Int" = .num n)
    ∧ (∀ v : Value, (∀ n, v = Value.num n → jsIsInteger n = false) →
        fixScalar v "Int" = .num (jsRound (toNumber v)))
    ∧ (∀ q : ℚ, jsRound (some q) = some ((⌊q + 1/2⌋ : ℤ) : ℚ) ∧
        ((⌊q + 1/2⌋ : ℤ) : ℚ).den = 1 ∧ |((⌊q + 1/2⌋ : ℤ) : ℚ) - q| ≤ 1/2)
    ∧ (∀ s : String, (parseJSNumber s).isSome = true →
        (∃ q, fixScalar (.str s) "Int" = .num (some q)) ∧
        (∃ q, fixScalar (.str s) "Float" = .num (some q)))
    ∧ (∀ v : Value, (∀ b, v ≠ Value.bool b) → fixScalar v "Boolean" = .bool (truthy v))
    ∧ (∀ n, fixScalar (.num n) "Float" = .num n)
    ∧ (∀ s, fixScalar (.str s) "String" = .str s)
    ∧ (∀ s, fixScalar (.str s) "ID" = .str s)
    ∧ (∀ b, fixScalar (.bool b) "Boolean" = .bool b) := by
  refine ⟨?_, ?_, ?_, ?_, ?_, ?_, ?_, ?_, ?_⟩
  · intro n h
    simp [fixScalar, h]
  · intro v h
    cases v with
    | num n => simp [fixScalar, h n rfl]
    | undef => rfl
    | null => rfl
    | str s => rfl
    | bool b => rfl
    | arr l => rfl
    | obj fs => rfl
  · intro q
    refine ⟨jsRound_eq_floor q, by simp, ?_⟩
    have h1 : ((⌊q + 1/2⌋ : ℤ) : ℚ) ≤ q + 1/2 := Int.floor_le _
    have h2 : q + 1/2 < (⌊q + 1/2⌋ : ℤ) + 1 := Int.lt_floor_add_one _
    rw [abs_le]
    constructor <;> linarith
  · intro s hs
    obtain ⟨q, hq⟩ := Option.isSome_iff_exists.mp hs
    constructor
    · refine ⟨((⌊q + 1/2⌋ : ℤ) : ℚ), ?_⟩
      show Value.num (jsRound (parseJSNumber s)) = _
      rw [hq, jsRound_eq_floor]
    · refine ⟨q, ?_⟩
      show Value.num (parseJSNumber s) = _
      rw [hq]
  · intro v h
    cases v with
    | bool b => exact absurd rfl (h b)
    | undef => rfl
    | null => rfl
    | num n => rfl
    | str s => rfl
    | arr l => rfl
    | obj fs => rfl
  · intro n; rfl
  · intro s; rfl
  · intro s; rfl
  · intro b; rfl

/-- C7 witness: concrete instances of the hypothesis-bearing conjuncts. -/
theorem fixScalar_coercion_witness :
    fixScalar (.num (some 3)) "Int" = .num (some 3)
    ∧ fixScalar (.num (some (mkRat 5 2))) "Int" =
        .num (jsRound (toNumber (.num (some (mkRat 5 2)))))
    ∧ (∃ q, fixScalar (.str "2.5") "Int" = .num (some q))
    ∧ fixScalar (.str "x") "Boolean" = .bool (truthy (.str "x")) := by
  refine ⟨?_, ?_, ?_, ?_⟩
  · exact fixScalar_coercion.1 (some 3) (by decide)
  · exact fixScalar_coercion.2.1 (.num (some (mkRat 5 2))) (by intro n h; cases h; decide)
  · exact (fixScalar_coercion.2.2.2.1 "2.5" (by decide)).1
  · exact fixScalar_coercion.2.2.2.2.1 (.str "x") (by intro b h; cases h)

/-- C9 witness at `T = "[Int!]!"`. -/
theorem validate_array_null_propagation_witness :
    validateRequiredInputData
      (.obj [("a", .arr [.num (some 1), .null, .num (some 3)])])
      ⟨some [("a", "[Int!]!")]⟩ [] "required" = some [("1", "required")] :=
  validate_array_null_propagation "[Int!]!" [] "required" (by decide) (by decide)
    (by decide)

section QueryBatcherClaims

variable {α ρ ε : Type}

/-- C4: on combined success with as many results as entries, each entry's
resolve callback receives exactly the result at its own submission index. -/
theorem runRequests_success_positional (reqs : List α) (results : List ρ)
    (retry : α → Except ε ρ) (hlen : results.length = reqs.length)
    (i : Nat) (hi : i < reqs.length) :
    (runRequests reqs (.ok results) retry).get? i =
      some (some (.ok (results.get ⟨i, hlen ▸ hi⟩))) := by
  have hi' : i < results.length := by omega
  simp [runRequests, List.getElem?_map, List.getElem?_range hi,
    List.getElem?_eq_getElem hi', List.get_eq_getElem]

/-- C4 witness: two entries, combined result `[1, 2]`; the entry at index 1
is resolved with `2`. -/
theorem runRequests_success_positional_witness :
    (runRequests (ρ := Nat) (ε := Nat) ["a", "b"] (.ok [1, 2])
      (fun _ => .error 0)).get? 1 = some (some (.ok 2)) := by
  have h := runRequests_success_positional (ρ := Nat) (ε := Nat) ["a", "b"] [1, 2]
    (fun _ => .error 0) rfl 1 (by decide)
  simpa using h

/-- C5: combined failure.  A single-entry cycle is rejected with the combined
error verbatim; in a multi-entry cycle each entry's settlement is exactly the
outcome of re-running its own thunk individually, so one entry's retry
failure cannot affect a sibling. -/
theorem runRequests_failure_paths (err : ε) (retry : α → Except ε ρ) :
    (∀ r : α, runRequests [r] (.error err) retry = [some (.error err)])
    ∧ (∀ reqs : List α, 2 ≤ reqs.length → ∀ i, ∀ hi : i < reqs.length,
        (runRequests reqs (.error err) retry).get? i =
          some (some (retry (reqs.get ⟨i, hi⟩)))) := by
  constructor
  · intro r
    simp [runRequests]
  · intro reqs h2 i hi
    have hne : reqs.length ≠ 1 := by omega
    simp [runRequests, hne, List.getElem?_map, List.getElem?_eq_getElem hi,
      List.get_eq_getElem]

/-- C5 witness: entries `[true, false]` with a retry oracle that succeeds on
`true` and fails on `false`; after the combined failure the first entry
resolves and the second rejects, independently; and a lone entry is rejected
with the combined error itself. -/
theorem runRequests_failure_paths_witness :
    (runRequests (ρ := Nat) [true, false] (.error 5)
        (fun b => if b then .ok 7 else .error 9)).get? 0 = some (some (.ok 7))
    ∧ (runRequests (ρ := Nat) [true, false] (.error 5)
        (fun b => if b then .ok 7 else .error 9)).get? 1 = some (some (.error 9))
    ∧ runRequests (ρ := Nat) [true] (.error 5)
        (fun b => if b then .ok 7 else .error 9) = [some (.error 5)] := by
  refine ⟨?_, ?_, ?_⟩
  · have h := (runRequests_failure_paths (ρ := Nat) 5
      (fun b => if b then .ok 7 else .error 9)).2 [true, false] (by decide) 0 (by decide)
    simpa using h
  · have h := (runRequests_failure_paths (ρ := Nat) 5
      (fun b => if b then .ok 7 else .error 9)).2 [true, false] (by decide) 1 (by decide)
    simpa using h
  · exact (runRequests_failure_paths (ρ := Nat) 5
      (fun b => if b then .ok 7 else .error 9)).1 true

theorem batch_invariant (evs : List (BatchEvent α)) (st : BatchState α) :
    (evs.foldl batchStep st).flushed.flatten ++ (evs.foldl batchStep st).requests =
      st.flushed.flatten ++ st.requests ++ submittedOf evs := by
  induction evs generalizing st with
  | nil => simp [submittedOf]
  | cons ev rest ih =>
    cases ev with
    | submit e =>
      rw [List.foldl_cons, ih]
      simp [batchStep, submittedOf]
    | fire =>
      rw [List.foldl_cons, ih]
      by_cases ht : st.timerArmed <;> simp [batchStep, ht, submittedOf]

theorem batch_flushed_mono (evs : List (BatchEvent α)) (st : BatchState α) :
    ∃ rest, (evs.foldl batchStep st).flushed = st.flushed ++ rest := by
  induction evs generalizing st with
  | nil => exact ⟨[], by simp⟩
  | cons ev rest ih =>
    obtain ⟨r1, hr1⟩ := ih (batchStep st ev)
    rw [List.foldl_cons]
    cases ev with
    | submit e =>
      exact ⟨r1, by simpa [batchStep] using hr1⟩
    | fire =>
      by_cases ht : st.timerArmed
      · refine ⟨[st.requests] ++ r1, ?_⟩
        rw [hr1]
        simp [batchStep, ht]
      · exact ⟨r1, by rw [hr1]; simp [batchStep, ht]⟩

/-- C6: cycle isolation and exactly-once membership.  (1) After any event
sequence, the flushed snapshots followed by the still-pending queue are
exactly the submitted entries in submission order — no entry is dropped or
duplicated across cycles; (2) already-flushed cycles are never revisited by
later events; (3) an entry not yet submitted during a prefix of events is in
no cycle flushed during that prefix — in particular an entry submitted after
a snapshot is taken cannot be in the flushed cycle, it can only start or
join the next one. -/
theorem batcher_cycle_isolation (evs1 evs2 : List (BatchEvent α)) :
    ((batchRun (evs1 ++ evs2)).flushed.flatten ++ (batchRun (evs1 ++ evs2)).requests =
        submittedOf evs1 ++ submittedOf evs2)
    ∧ (∃ rest, (batchRun (evs1 ++ evs2)).flushed = (batchRun evs1).flushed ++ rest)
    ∧ (∀ e, e ∉ submittedOf evs1 → e ∉ (batchRun evs1).flushed.flatten) := by
  refine ⟨?_, ?_, ?_⟩
  · have h := batch_invariant (evs1 ++ evs2) (batchInit (α := α))
    simpa [batchRun, batchInit, submittedOf, List.filterMap_append] using h
  · rw [batchRun, List.foldl_append]
    exact batch_flushed_mono evs2 _
  · intro e he hmem
    have h := batch_invariant evs1 (batchInit (α := α))
    simp only [batchInit, List.flatten_nil, List.nil_append] at h
    exact he (h ▸ List.mem_append_left _ hmem)

/-- C6 witness: entry `1`, submitted only after the cycle `[0]` was flushed,
is not in any cycle flushed up to that point. -/
theorem batcher_cycle_isolation_witness :
    (1 : ℕ) ∉ (batchRun [BatchEvent.submit 0, BatchEvent.fire]).flushed.flatten :=
  (batcher_cycle_isolation [BatchEvent.submit 0, BatchEvent.fire]
    [BatchEvent.submit 1]).2.2 1 (by decide)

end QueryBatcherClaims

/-- C1: fixing is idempotent — for every value, type name and schema,
applying `fixValue` twice equals applying it once, and likewise
`fixInputData` for every root data, operation type and schema. -/
theorem fix_idempotent :
    (∀ (v : Value) (t : String) (s : Schema),
      fixValue (fixValue v t s) t s = fixValue v t s)
    ∧ ∀ (data : Value) (op : OpType) (s : Schema),
      fixInputData (fixInputData data op s) op s = fixInputData data op s :=
  ⟨fixValue_idem, fixInputData_idem⟩

/-- C3: pruning — for every input, operation type and schema, the output of
`fixInputData` holds at the root only keys that are declared operation
arguments, and beneath every key, at every nesting depth, only keys present
in the schema's field set for the expected type at that position (types with
no schema entry are opaque leaves); the same holds for `fixValue` at any
type name. -/
theorem fixInputData_pruning :
    ∀ (data : Value) (op : OpType) (s : Schema),
      prunedRoot (fixInputData data op s) op s = true ∧
      ∀ (v : Value) (t : String), pruned (fixValue v t s) t s = true :=
  fun data op s =>
    ⟨prunedRoot_fixInputData data op s, fun v t => pruned_fixValue v t s⟩

end GqlessDP
